import Mathlib

/-!
Shallow embedding of the event-dispatch core in `src/vs/base/common/event.ts`
(`Emitter`, `PauseableEmitter`, `DebounceEmitter`, `AsyncEmitter`,
`LeakageMonitor`), together with theorems settling the specification claims.

Modelling conventions:
* Payloads are `Nat`; listener ids are `Nat`.
* A listener's callback is modelled by a small action language `LAct` covering
  exactly the effects the claims exercise: doing nothing, throwing (caught by
  `Emitter.fire`'s `try`/`catch`), disposing another subscription mid-dispatch
  (the `SafeDisposable` produced by `Emitter.event`), and re-entering `pause`
  on a `PauseableEmitter`.  None of these actions can re-enter `fire`, so the
  source's shared-delivery-queue `while` loops are drained by recursion on the
  queue snapshot.
* `this._listeners` is a `LinkedList` created lazily on first subscribe and
  never deleted, only cleared; it is therefore an `Option (List Listener)`:
  `none` = the field is still `undefined`, `some []` = an existing but empty
  list (which is *truthy* in JS).  The same holds for `this._deliveryQueue`.
* Instance configuration that the source stores in `private readonly` fields
  (`_mergeFn`, `_delay`, the merge function of `DebounceEmitter`) is passed as
  an explicit parameter to the operation that reads it, keeping the state type
  decidable.
* Observable behaviour is recorded in instrumentation fields: `invoked` logs
  every `listener.invoke(event)` call (id, payload), `fired` logs every
  dispatch performed by `Emitter.fire`'s truthy-listeners branch, `errSink`
  logs every `onUnexpectedError` report, and `hookCalls` counts
  `onLastListenerRemove` invocations.
* The `queueMicrotask` deferral inside `Emitter.dispose` only unsets the
  `SafeDisposable` wrappers of already-detached listeners; its effect is
  subsumed by the `_disposed` guard of the subscription disposable, which is
  modelled directly.
-/

set_option linter.unusedVariables false

/-- Behaviour of a subscribed callback when invoked during a dispatch. -/
inductive LAct where
  | nop : LAct
  | throwErr : String → LAct
  | releaseSub : Nat → LAct
  | pauseSelf : LAct
deriving DecidableEq

/-- One entry of the emitter's listener `LinkedList`: the `Listener` class of
`event.ts` (callback + bound context + stacktrace), reduced to an id and the
callback's behaviour. -/
structure Listener where
  id : Nat
  act : LAct
deriving DecidableEq

/-- The mutable state of an `Emitter` (including the fields added by
`PauseableEmitter`), plus instrumentation logs of its observable effects. -/
structure EmState where
  listeners : Option (List Listener)
  deliveryQueue : Option (List (Listener × Nat))
  disposed : Bool
  isPaused : Nat
  eventQueue : List Nat
  invoked : List (Nat × Nat)
  fired : List Nat
  errSink : List String
  hookCalls : Nat
deriving DecidableEq

/-- A freshly constructed emitter: every lazily-created field is absent. -/
def initEm : EmState :=
  { listeners := none, deliveryQueue := none, disposed := false, isPaused := 0,
    eventQueue := [], invoked := [], fired := [], errSink := [], hookCalls := 0 }

/-- Remove the first listener with the given id (the `removeListener()` closure
returned by `LinkedList.push` removes exactly the pushed node). -/
def removeFirstById (j : Nat) : List Listener → List Listener
  | [] => []
  | l :: rest => if l.id = j then rest else l :: removeFirstById j rest

/-- The subscription disposable created in `Emitter.event` (via
`SafeDisposable.set(toDisposable(...))`): if the emitter is not disposed it
removes the listener from the listener list and, when that empties the list,
invokes the `onLastListenerRemove` hook.  The `SafeDisposable` makes a second
release a no-op; with unique ids this corresponds to acting only when a
listener with that id is still present. -/
def releaseById (j : Nat) (s : EmState) : EmState :=
  if s.disposed then s
  else
    match s.listeners with
    | none => s
    | some ls =>
        if ls.any (fun l => l.id = j) then
          let ls2 := removeFirstById j ls
          { s with listeners := some ls2,
                   hookCalls := if ls2.isEmpty then s.hookCalls + 1 else s.hookCalls }
        else s

/-- Run one listener callback: either a state transformation or a thrown
exception (`Except.error`), matching the fact that `listener.invoke(event)`
inside `Emitter.fire` sits in a `try`/`catch`. -/
def runCallback : LAct → EmState → Except String EmState
  | .nop, s => .ok s
  | .throwErr m, _ => .error m
  | .releaseSub j, s => .ok (releaseById j s)
  | .pauseSelf, s => .ok { s with isPaused := s.isPaused + 1 }

/-- The `while (this._deliveryQueue.size > 0)` loop of `Emitter.fire`: shift
the front `[listener, event]` pair, invoke the listener (logging the
invocation), catch any exception and report it to `onUnexpectedError`, then
continue with the remaining queue.  The modelled actions never push onto the
delivery queue, so the shared queue is drained by recursion on its snapshot. -/
def Emitter.deliver : List (Listener × Nat) → EmState → EmState
  | [], s => s
  | (l, v) :: rest, s =>
      let s1 := { s with invoked := s.invoked ++ [(l.id, v)] }
      match runCallback l.act s1 with
      | .ok s2 => Emitter.deliver rest s2
      | .error m => Emitter.deliver rest { s1 with errSink := s1.errSink ++ [m] }

/-- `Emitter.fire(event)`: guarded by the *truthiness* of `this._listeners`
(an existing-but-empty `LinkedList` still enters the branch), it lazily
allocates the delivery queue, pushes one `[listener, event]` pair per current
listener behind any pairs already pending, and drains the queue. -/
def Emitter.fire (v : Nat) (s : EmState) : EmState :=
  match s.listeners with
  | none => s
  | some ls =>
      let q := s.deliveryQueue.getD [] ++ ls.map (fun l => (l, v))
      Emitter.deliver q { s with deliveryQueue := some [], fired := s.fired ++ [v] }

/-- `Emitter.event`'s subscribe path, reduced to the listener-list mutation:
the new listener is appended at the end (the leak-monitor interaction is
modelled separately by `Emitter.subscribeLeak`). -/
def Emitter.subscribe (l : Listener) (s : EmState) : EmState :=
  { s with listeners := some (s.listeners.getD [] ++ [l]) }

/-- `Emitter.dispose()`: guarded by `this._disposed`; marks disposed, clears
(but does not delete) the listener list and the delivery queue, and invokes
`onLastListenerRemove` once.  The `queueMicrotask` deferral only unsets the
already-detached subscription wrappers and is subsumed by the `_disposed`
guard in `releaseById`. -/
def Emitter.dispose (s : EmState) : EmState :=
  if s.disposed then s
  else
    { s with disposed := true,
             listeners := s.listeners.map (fun _ => []),
             deliveryQueue := s.deliveryQueue.map (fun _ => []),
             hookCalls := s.hookCalls + 1 }

/-- `PauseableEmitter.pause()`: `this._isPaused++`. -/
def PauseableEmitter.pause (s : EmState) : EmState :=
  { s with isPaused := s.isPaused + 1 }

/-- The `while (!this._isPaused && this._eventQueue.size !== 0)` flush loop of
`PauseableEmitter.resume` on the no-merge path: before each dispatch it checks
whether a listener re-entered `pause`, shifts the front payload out of the
queue and fires it.  The queue lives in the state (`eventQueue`); the list
argument is the loop's iteration snapshot and is kept equal to `s.eventQueue`
at every call (the modelled actions never push onto the event queue). -/
def PauseableEmitter.flush : List Nat → EmState → EmState
  | [], s => s
  | v :: rest, s =>
      if s.isPaused ≠ 0 then s
      else PauseableEmitter.flush rest (Emitter.fire v { s with eventQueue := rest })

/-- `PauseableEmitter.resume()`: only the transition of `_isPaused` from 1 to 0
takes effect.  With a merge function the whole queued batch is combined and
dispatched exactly once; otherwise queued payloads are flushed one at a time
(`PauseableEmitter.flush`).  `mergeFn` is the `_mergeFn` field captured at
construction. -/
def PauseableEmitter.resume (mergeFn : Option (List Nat → Nat)) (s : EmState) : EmState :=
  if s.isPaused = 0 then s
  else if s.isPaused = 1 then
    match mergeFn with
    | some f =>
        let events := s.eventQueue
        Emitter.fire (f events) { s with isPaused := 0, eventQueue := [] }
    | none => PauseableEmitter.flush s.eventQueue { s with isPaused := 0 }
  else { s with isPaused := s.isPaused - 1 }

/-- `PauseableEmitter.fire(event)`: guarded by the truthiness of
`this._listeners`; while paused the payload is appended to the event queue,
otherwise it is dispatched through `Emitter.fire`. -/
def PauseableEmitter.fire (v : Nat) (s : EmState) : EmState :=
  match s.listeners with
  | none => s
  | some _ =>
      if s.isPaused ≠ 0 then { s with eventQueue := s.eventQueue ++ [v] }
      else Emitter.fire v s

/-- A `DebounceEmitter`: the inherited pauseable state plus `_handle`, the
pending `setTimeout` handle, modelled as the absolute time at which the timer
will elapse. -/
structure DebState where
  em : EmState
  handle : Option Nat
deriving DecidableEq

/-- `DebounceEmitter.fire(event)` at wall-clock time `t` with configured delay
`d`: only when no timer is pending does it pause and start a timer for `t + d`
— a later fire inside the window does *not* reset the timer; every fire is
then queued via the inherited pause behaviour. -/
def DebounceEmitter.fire (d : Nat) (t : Nat) (v : Nat) (s : DebState) : DebState :=
  if s.handle.isSome then { s with em := PauseableEmitter.fire v s.em }
  else
    { em := PauseableEmitter.fire v (PauseableEmitter.pause s.em),
      handle := some (t + d) }

/-- The `setTimeout` callback of `DebounceEmitter.fire`: clear the handle and
resume (the merge function `f` is the mandatory `merge` option).  Returns the
emissions this expiry produced, stamped with the expiry time `te`, together
with the new state. -/
def DebounceEmitter.expire (f : List Nat → Nat) (te : Nat) (s : DebState) :
    List (Nat × Nat) × DebState :=
  let em := PauseableEmitter.resume (some f) s.em
  ((em.fired.drop s.em.fired.length).map (fun x => (te, x)), ⟨em, none⟩)

/-- Event-loop driver for a `DebounceEmitter`: processes a time-ordered list of
external `fire` calls, letting a pending timer elapse before any fire at or
after its deadline, and letting the last pending timer elapse at the end.
Returns the time-stamped emissions. -/
def DebounceEmitter.run (d : Nat) (f : List Nat → Nat) :
    List (Nat × Nat) → DebState → List (Nat × Nat)
  | [], s =>
      match s.handle with
      | some te => (DebounceEmitter.expire f te s).1
      | none => []
  | (t, v) :: rest, s =>
      match s.handle with
      | some te =>
          if te ≤ t then
            let p := DebounceEmitter.expire f te s
            p.1 ++ DebounceEmitter.run d f rest (DebounceEmitter.fire d t v p.2)
          else DebounceEmitter.run d f rest (DebounceEmitter.fire d t v s)
      | none => DebounceEmitter.run d f rest (DebounceEmitter.fire d t v s)

/-- A debounce emitter with the given subscribed listeners and no pending
timer. -/
def debInit (L : List Listener) : DebState :=
  ⟨{ initEm with listeners := some L }, none⟩

/-- Internal state of a `LeakageMonitor`: the `_stacks` tally (a JS `Map`
keyed by stacktrace text, insertion-ordered, here an association list) and the
`_warnCountdown` (a JS number, initially 0; `threshold * 0.5` can be
fractional, hence `Rat`). -/
structure LeakState where
  tally : List (String × Nat)
  warnCountdown : Rat
deriving DecidableEq

/-- `this._stacks.set(stack.value, (this._stacks.get(stack.value) || 0) + 1)`:
bump the count of a stack, inserting at the end when absent (JS `Map`
insertion order). -/
def bumpStack (st : String) : List (String × Nat) → List (String × Nat)
  | [] => [(st, 1)]
  | (s, c) :: rest => if s = st then (s, c + 1) :: rest else (s, c) :: bumpStack st rest

/-- One step of the "find most frequent listener" scan of
`LeakageMonitor.check`: `if (!topStack || topCount < count)` keeps the first
stack attaining the maximal count. -/
def topStep (acc : Option String × Nat) (sc : String × Nat) : Option String × Nat :=
  if acc.1.isNone ∨ acc.2 < sc.2 then (some sc.1, sc.2) else acc

/-- The "find most frequent listener" fold of `LeakageMonitor.check`,
scanning the tally in insertion order from `(undefined, 0)`. -/
def findTop (tally : List (String × Nat)) : Option String × Nat :=
  tally.foldl topStep (none, 0)

/-- The effective threshold of `LeakageMonitor.check`: the per-instance
`customThreshold` when it is a number, else the process-wide
`_globalLeakWarningThreshold` read at call time. -/
def effectiveThreshold (globalThreshold : Rat) (customThreshold : Option Rat) : Rat :=
  match customThreshold with
  | some t => t
  | none => globalThreshold

/-- `LeakageMonitor.check(stack, listenerCount)`: the effective threshold is
the per-instance `customThreshold` when it is a number, else the process-wide
`_globalLeakWarningThreshold` read at call time.  Returns early when the
threshold is ≤ 0 or the listener count is below it; otherwise tallies the
stack, decrements the countdown and, when it reaches ≤ 0, resets it to
`threshold * 0.5` and emits a warning naming the most frequent capture site
(with its tally).  The returned warning is `none` when nothing was printed;
the undo closure it returns in the source only reverts the tally and is not
needed by the claims. -/
def LeakageMonitor.check (globalThreshold : Rat) (customThreshold : Option Rat)
    (stack : String) (listenerCount : Nat) (m : LeakState) :
    LeakState × Option (String × Nat) :=
  let threshold := effectiveThreshold globalThreshold customThreshold
  if threshold ≤ 0 ∨ (listenerCount : Rat) < threshold then (m, none)
  else
    let tally := bumpStack stack m.tally
    let cd := m.warnCountdown - 1
    if cd ≤ 0 then
      let top := findTop tally
      (⟨tally, threshold * (1 / 2)⟩, some (top.1.getD "", top.2))
    else (⟨tally, cd⟩, none)

/-- The leak-diagnostic face of an `Emitter`: the constructor-chosen monitor
(present only when the global threshold was > 0 at construction, carrying the
per-instance `leakWarningThreshold` option), the current listener count, and
the warnings printed so far. -/
structure MonEmitter where
  leakageMon : Option (Option Rat × LeakState)
  listenerCount : Nat
  warnings : List (String × Nat)
deriving DecidableEq

/-- The `Emitter` constructor's leak-monitor decision:
`this._leakageMon = _globalLeakWarningThreshold > 0 ? new LeakageMonitor(options?.leakWarningThreshold) : undefined`. -/
def Emitter.construct (globalThreshold : Rat) (leakWarningThreshold : Option Rat) :
    MonEmitter :=
  { leakageMon := if 0 < globalThreshold then some (leakWarningThreshold, ⟨[], 0⟩) else none,
    listenerCount := 0,
    warnings := [] }

/-- The leak-monitor interaction of one subscribe in `Emitter.event`: when a
monitor exists, `check` is called with the captured stack and
`this._listeners.size + 1`; `globalThreshold` is the process-wide threshold at
subscribe time. -/
def Emitter.subscribeLeak (globalThreshold : Rat) (stack : String) (e : MonEmitter) :
    MonEmitter :=
  match e.leakageMon with
  | none => { e with listenerCount := e.listenerCount + 1 }
  | some (custom, m) =>
      let r := LeakageMonitor.check globalThreshold custom stack (e.listenerCount + 1) m
      { leakageMon := some (custom, r.1),
        listenerCount := e.listenerCount + 1,
        warnings := e.warnings ++ r.2.toList }

/-- A sequence of subscriptions, each performed under its own then-current
global threshold and captured stack. -/
def Emitter.subscribeSeq (subs : List (Rat × String)) (e : MonEmitter) : MonEmitter :=
  subs.foldl (fun e gs => Emitter.subscribeLeak gs.1 gs.2 e) e

/-- One joined promise in the async model: how long after the synchronous part
of its turn it settles, and `some reason` when it settles by rejection. -/
structure JoinPromise where
  dur : Nat
  rejects : Option String
deriving DecidableEq

/-- A listener of an `AsyncEmitter`: the promises it passes to `waitUntil`
during the synchronous part of its turn, and `some msg` when its callback then
throws (before returning). -/
structure AListener where
  id : Nat
  joins : List JoinPromise
  throws : Option String
deriving DecidableEq

/-- Outcome of `fireAsync`: every listener invocation with its start time, the
`onUnexpectedError` reports in order, and the completion time. -/
structure AsyncResult where
  invocations : List (Nat × Nat)
  errSink : List String
  endTime : Nat
deriving DecidableEq

/-- `AsyncEmitter.fireAsync` over the snapshot of listeners, starting from
turn index `i` at time `now`.  Per source: the loop stops when the queue is
empty or `token.isCancellationRequested` (checked at each turn boundary, as
`token i`).  For each turn the listener is invoked synchronously; promises it
passes to `waitUntil` are collected (each transformed by `promiseJoin` when
supplied).  A thrown callback is reported to `onUnexpectedError` and the loop
`continue`s — its collected thenables are dropped without being awaited.
Otherwise the collection is frozen and `Promise.allSettled` waits for every
thenable (time advances by the slowest), reporting each rejection
individually; nothing is ever thrown to the caller. -/
def AsyncEmitter.fireAsync (token : Nat → Bool)
    (promiseJoin : Option (JoinPromise → JoinPromise)) :
    List AListener → Nat → Nat → AsyncResult
  | [], _, now => ⟨[], [], now⟩
  | l :: rest, i, now =>
      if token i then ⟨[], [], now⟩
      else
        let joins := match promiseJoin with
          | some g => l.joins.map g
          | none => l.joins
        match l.throws with
        | some m =>
            let r := AsyncEmitter.fireAsync token promiseJoin rest (i + 1) now
            ⟨(l.id, now) :: r.invocations, m :: r.errSink, r.endTime⟩
        | none =>
            let settled := now + joins.foldl (fun a p => max a p.dur) 0
            let errs := joins.filterMap (fun p => p.rejects)
            let r := AsyncEmitter.fireAsync token promiseJoin rest (i + 1) settled
            ⟨(l.id, now) :: r.invocations, errs ++ r.errSink, r.endTime⟩

/-- The `waitUntil` closure built for one turn of `fireAsync` (lines with the
`Object.isFrozen(thenables)` guard): called after the turn's synchronous part
has returned (`frozen = true`) it throws the distinct late-join error;
otherwise it applies `promiseJoin` when supplied and appends the promise to
the turn's collection. -/
def AsyncEmitter.waitUntil (promiseJoin : Option (JoinPromise → JoinPromise))
    (frozen : Bool) (thenables : List JoinPromise) (p : JoinPromise) :
    Except String (List JoinPromise) :=
  if frozen then Except.error "waitUntil can NOT be called asynchronous"
  else
    let q := match promiseJoin with
      | some g => g p
      | none => p
    Except.ok (thenables ++ [q])

/-- The synchronous portion of one listener turn as seen by `waitUntil`: the
collection starts empty and un-frozen, and each synchronous `waitUntil` call
appends. -/
def AsyncEmitter.collectJoins (promiseJoin : Option (JoinPromise → JoinPromise))
    (ps : List JoinPromise) : Except String (List JoinPromise) :=
  ps.foldlM (fun acc p => AsyncEmitter.waitUntil promiseJoin false acc p) []

/-- The `onUnexpectedError` report a listener produces when invoked, if any. -/
def throwMsg (l : Listener) : Option String :=
  match l.act with
  | .throwErr m => some m
  | _ => none

/-- No live listener carries id `j`. -/
def noId (j : Nat) (s : EmState) : Prop :=
  ∀ l ∈ s.listeners.getD [], l.id ≠ j

/-- At most one live listener carries id `j`. -/
def atMostOneId (j : Nat) (s : EmState) : Prop :=
  (s.listeners.getD []).countP (fun l => l.id = j) ≤ 1

theorem removeFirstById_sublist (j : Nat) (ls : List Listener) :
    (removeFirstById j ls).Sublist ls := by
  induction ls with
  | nil => simp [removeFirstById]
  | cons l rest ih =>
      by_cases h : l.id = j
      · simpa [removeFirstById, h] using List.sublist_cons_self l rest
      · simpa [removeFirstById, h] using ih

theorem releaseById_frame (j : Nat) (s : EmState) :
    (releaseById j s).invoked = s.invoked ∧ (releaseById j s).fired = s.fired ∧
    (releaseById j s).errSink = s.errSink ∧ (releaseById j s).eventQueue = s.eventQueue ∧
    (releaseById j s).deliveryQueue = s.deliveryQueue ∧
    (releaseById j s).disposed = s.disposed ∧ (releaseById j s).isPaused = s.isPaused ∧
    (releaseById j s).listeners.isSome = s.listeners.isSome := by
  unfold releaseById
  split
  · exact ⟨rfl, rfl, rfl, rfl, rfl, rfl, rfl, rfl⟩
  · split
    · exact ⟨rfl, rfl, rfl, rfl, rfl, rfl, rfl, rfl⟩
    · rename_i ls heq
      split
      · simp [heq]
      · exact ⟨rfl, rfl, rfl, rfl, rfl, rfl, rfl, rfl⟩

theorem runCallback_ok_frame (a : LAct) (s s2 : EmState) (h : runCallback a s = .ok s2) :
    s2.invoked = s.invoked ∧ s2.fired = s.fired ∧ s2.errSink = s.errSink ∧
    s2.eventQueue = s.eventQueue ∧ s2.deliveryQueue = s.deliveryQueue ∧
    s2.disposed = s.disposed ∧ s2.listeners.isSome = s.listeners.isSome := by
  cases a with
  | nop => cases h; exact ⟨rfl, rfl, rfl, rfl, rfl, rfl, rfl⟩
  | throwErr m => cases h
  | releaseSub j =>
      cases h
      have := releaseById_frame j s
      tauto
  | pauseSelf => cases h; exact ⟨rfl, rfl, rfl, rfl, rfl, rfl, rfl⟩

/-- Characterisation of the delivery loop: every queued `[listener, event]`
pair is invoked, in queue order, regardless of what the listeners do (release,
throw, pause); thrown exceptions are reported in order; and the loop touches
neither the pending event queue, the fired log, the disposed flag, nor the
existence of the listener list. -/
theorem deliver_spec (q : List (Listener × Nat)) (s : EmState) :
    (Emitter.deliver q s).invoked = s.invoked ++ q.map (fun e => (e.1.id, e.2)) ∧
    (Emitter.deliver q s).errSink = s.errSink ++ q.filterMap (fun e => throwMsg e.1) ∧
    (Emitter.deliver q s).fired = s.fired ∧
    (Emitter.deliver q s).eventQueue = s.eventQueue ∧
    (Emitter.deliver q s).deliveryQueue = s.deliveryQueue ∧
    (Emitter.deliver q s).disposed = s.disposed ∧
    (Emitter.deliver q s).listeners.isSome = s.listeners.isSome := by
  induction q generalizing s with
  | nil => simp [Emitter.deliver]
  | cons e rest ih =>
      obtain ⟨l, v⟩ := e
      cases ha : l.act with
      | nop =>
          have := ih { s with invoked := s.invoked ++ [(l.id, v)] }
          simpa [Emitter.deliver, runCallback, ha, throwMsg] using this
      | throwErr m =>
          have := ih { s with invoked := s.invoked ++ [(l.id, v)],
                              errSink := s.errSink ++ [m] }
          simpa [Emitter.deliver, runCallback, ha, throwMsg] using this
      | releaseSub j =>
          have hr := releaseById_frame j { s with invoked := s.invoked ++ [(l.id, v)] }
          have := ih (releaseById j { s with invoked := s.invoked ++ [(l.id, v)] })
          simp [Emitter.deliver, runCallback, ha, throwMsg] at this ⊢
          obtain ⟨h1, h2, h3, h4, h5, h6, h7⟩ := this
          obtain ⟨g1, g2, g3, g4, g5, g6, g7, g8⟩ := hr
          simp [h1, h2, h3, h4, h5, h6, h7, g1, g2, g3, g4, g5, g6, g7, g8]
      | pauseSelf =>
          have := ih { s with invoked := s.invoked ++ [(l.id, v)],
                              isPaused := s.isPaused + 1 }
          simpa [Emitter.deliver, runCallback, ha, throwMsg] using this

theorem fire_invoked (v : Nat) (s : EmState) (ls : List Listener)
    (hl : s.listeners = some ls) (hq : s.deliveryQueue.getD [] = []) :
    (Emitter.fire v s).invoked = s.invoked ++ ls.map (fun l => (l.id, v)) := by
  simp only [Emitter.fire, hl, hq, List.nil_append]
  rw [(deliver_spec _ _).1]
  simp [List.map_map, Function.comp_def]

theorem fire_errSink (v : Nat) (s : EmState) (ls : List Listener)
    (hl : s.listeners = some ls) (hq : s.deliveryQueue.getD [] = []) :
    (Emitter.fire v s).errSink = s.errSink ++ ls.filterMap throwMsg := by
  simp only [Emitter.fire, hl, hq, List.nil_append]
  rw [(deliver_spec _ _).2.1]
  simp [List.filterMap_map, Function.comp_def]

theorem fire_eventQueue (v : Nat) (s : EmState) :
    (Emitter.fire v s).eventQueue = s.eventQueue := by
  cases hl : s.listeners with
  | none => simp [Emitter.fire, hl]
  | some ls =>
      simp only [Emitter.fire, hl]
      exact (deliver_spec _ _).2.2.2.1

theorem fire_fired (v : Nat) (s : EmState) (ls : List Listener)
    (hl : s.listeners = some ls) :
    (Emitter.fire v s).fired = s.fired ++ [v] := by
  simp only [Emitter.fire, hl]
  exact (deliver_spec _ _).2.2.1

theorem fire_isSome (v : Nat) (s : EmState) :
    (Emitter.fire v s).listeners.isSome = s.listeners.isSome := by
  cases hl : s.listeners with
  | none => simp [Emitter.fire, hl]
  | some ls =>
      simp only [Emitter.fire, hl]
      rw [(deliver_spec _ _).2.2.2.2.2.2]

theorem fire_disposed (v : Nat) (s : EmState) :
    (Emitter.fire v s).disposed = s.disposed := by
  cases hl : s.listeners with
  | none => simp [Emitter.fire, hl]
  | some ls =>
      simp only [Emitter.fire, hl]
      exact (deliver_spec _ _).2.2.2.2.2.1

theorem fire_deliveryQueue (v : Nat) (s : EmState) (ls : List Listener)
    (hl : s.listeners = some ls) :
    (Emitter.fire v s).deliveryQueue = some [] := by
  simp only [Emitter.fire, hl]
  exact (deliver_spec _ _).2.2.2.2.1

theorem releaseById_noId (j k : Nat) (s : EmState) (h : noId j s) :
    noId j (releaseById k s) := by
  unfold releaseById
  split
  · exact h
  · split
    · exact h
    · rename_i ls heq
      split
      · intro l hm
        exact h l (by simpa [noId, heq] using (removeFirstById_sublist k ls).mem hm)
      · exact h

theorem releaseById_atMostOne (j k : Nat) (s : EmState) (h : atMostOneId j s) :
    atMostOneId j (releaseById k s) := by
  unfold releaseById
  split
  · exact h
  · split
    · exact h
    · rename_i ls heq
      split
      · refine le_trans ?_ (by simpa [atMostOneId, heq] using h)
        simpa [atMostOneId] using (removeFirstById_sublist k ls).countP_le _
      · exact h

theorem removeFirstById_self (j : Nat) (ls : List Listener)
    (hone : ls.countP (fun l => l.id = j) ≤ 1) :
    ∀ l ∈ removeFirstById j ls, l.id ≠ j := by
  induction ls with
  | nil => simp [removeFirstById]
  | cons l rest ih =>
      by_cases hl : l.id = j
      · simp only [removeFirstById, if_pos hl]
        intro x hx hid
        have : 1 ≤ rest.countP (fun l => l.id = j) := by
          have := List.countP_pos (p := fun l => decide (l.id = j)) (l := rest)
          simp only [decide_eq_true_eq] at this
          exact this.mpr ⟨x, hx, by simpa using hid⟩
        have hc : (l :: rest).countP (fun x => x.id = j)
            = rest.countP (fun x => x.id = j) + 1 := by
          simp [List.countP_cons, hl]
        omega
      · simp only [removeFirstById, if_neg hl]
        intro x hx
        rcases List.mem_cons.mp hx with h1 | h1
        · subst h1; exact hl
        · refine ih ?_ x h1
          have hc : (l :: rest).countP (fun x => x.id = j)
              = rest.countP (fun x => x.id = j) := by
            simp [List.countP_cons, hl]
          omega

theorem releaseById_self (j : Nat) (s : EmState)
    (hone : atMostOneId j s) (hd : s.disposed = false) :
    noId j (releaseById j s) := by
  unfold releaseById
  rw [hd]
  simp only [Bool.false_eq_true, if_false]
  cases hl : s.listeners with
  | none => simp [noId, hl]
  | some ls =>
      simp only
      split
      · intro l hm
        simp only [Option.getD_some] at hm
        exact removeFirstById_self j ls (by simpa [atMostOneId, hl] using hone) l hm
      · rename_i hnone
        intro l hm hid
        simp only [hl, Option.getD_some] at hm
        exact hnone (List.any_eq_true.mpr ⟨l, hm, by simpa using hid⟩)

theorem deliver_noId (j : Nat) (q : List (Listener × Nat)) (s : EmState)
    (h : noId j s) : noId j (Emitter.deliver q s) := by
  induction q generalizing s with
  | nil => simpa [Emitter.deliver] using h
  | cons e rest ih =>
      obtain ⟨l, v⟩ := e
      have h1 : noId j { s with invoked := s.invoked ++ [(l.id, v)] } := h
      cases ha : l.act with
      | nop => simpa [Emitter.deliver, runCallback, ha] using ih _ h1
      | throwErr m =>
          simpa [Emitter.deliver, runCallback, ha] using
            ih { s with invoked := s.invoked ++ [(l.id, v)],
                        errSink := s.errSink ++ [m] } h1
      | releaseSub k =>
          simpa [Emitter.deliver, runCallback, ha] using ih _ (releaseById_noId j k _ h1)
      | pauseSelf =>
          simpa [Emitter.deliver, runCallback, ha] using
            ih { s with invoked := s.invoked ++ [(l.id, v)],
                        isPaused := s.isPaused + 1 } h1

theorem deliver_releases (j : Nat) (q : List (Listener × Nat)) (s : EmState)
    (hone : atMostOneId j s) (hd : s.disposed = false)
    (hrel : ∃ e ∈ q, e.1.act = .releaseSub j) :
    noId j (Emitter.deliver q s) := by
  induction q generalizing s with
  | nil => simp at hrel
  | cons e rest ih =>
      obtain ⟨l, v⟩ := e
      have h1 : atMostOneId j { s with invoked := s.invoked ++ [(l.id, v)] } := hone
      have hd1 : ({ s with invoked := s.invoked ++ [(l.id, v)] } : EmState).disposed
          = false := hd
      by_cases ha : l.act = .releaseSub j
      · have hno : noId j (releaseById j { s with invoked := s.invoked ++ [(l.id, v)] }) :=
          releaseById_self j _ h1 hd1
        simpa [Emitter.deliver, runCallback, ha] using deliver_noId j rest _ hno
      · have hrel2 : ∃ e ∈ rest, e.1.act = .releaseSub j := by
          rcases hrel with ⟨e, he, hact⟩
          rcases List.mem_cons.mp he with h2 | h2
          · rw [h2] at hact
            exact absurd (by simpa using hact) ha
          · exact ⟨e, h2, hact⟩
        cases hact : l.act with
        | nop => simpa [Emitter.deliver, runCallback, hact] using ih _ h1 hd1 hrel2
        | throwErr m =>
            simpa [Emitter.deliver, runCallback, hact] using
              ih { s with invoked := s.invoked ++ [(l.id, v)],
                          errSink := s.errSink ++ [m] } h1 hd1 hrel2
        | releaseSub k =>
            have hone2 := releaseById_atMostOne j k _ h1
            have hd2 : (releaseById k { s with invoked := s.invoked ++ [(l.id, v)] }).disposed
                = false := by
              rw [(releaseById_frame k _).2.2.2.2.2.1]; exact hd
            simpa [Emitter.deliver, runCallback, hact] using ih _ hone2 hd2 hrel2
        | pauseSelf =>
            simpa [Emitter.deliver, runCallback, hact] using
              ih { s with invoked := s.invoked ++ [(l.id, v)],
                          isPaused := s.isPaused + 1 } h1 hd1 hrel2

/-- Claim C4: a listener already snapshotted into the delivery queue whose
release handle is invoked (by an earlier listener of the same dispatch)
strictly before its queue entry is dequeued is still invoked exactly once for
the in-flight payload; and after that dispatch — hence for every later
`fire` — the released listener is never invoked again. -/
theorem emitter_release_during_dispatch_quirk
    (pre post : List Listener) (lj : Listener) (v u : Nat) (s : EmState)
    (hl : s.listeners = some (pre ++ lj :: post))
    (hq : s.deliveryQueue.getD [] = [])
    (hd : s.disposed = false)
    (hrel : ∃ l ∈ pre, l.act = .releaseSub lj.id)
    (hid : ∀ l ∈ pre ++ post, l.id ≠ lj.id) :
    (((Emitter.fire v s).invoked.drop s.invoked.length).count (lj.id, v) = 1) ∧
    (∀ p ∈ (Emitter.fire u (Emitter.fire v s)).invoked.drop
        (Emitter.fire v s).invoked.length, p.1 ≠ lj.id) := by
  constructor
  · rw [fire_invoked v s _ hl hq, List.drop_left]
    have hpre : (pre.map fun l => (l.id, v)).count (lj.id, v) = 0 := by
      rw [List.count_eq_zero]
      intro hmem
      rcases List.mem_map.mp hmem with ⟨l, hlm, hfe⟩
      exact hid l (List.mem_append_left _ hlm) (by simpa using congrArg Prod.fst hfe)
    have hpost : (post.map fun l => (l.id, v)).count (lj.id, v) = 0 := by
      rw [List.count_eq_zero]
      intro hmem
      rcases List.mem_map.mp hmem with ⟨l, hlm, hfe⟩
      exact hid l (List.mem_append_right _ hlm) (by simpa using congrArg Prod.fst hfe)
    simp [List.count_append, hpre, hpost, List.count_cons, hpost]
  · -- after the dispatch no live listener carries lj's id any more
    have hone : atMostOneId lj.id
        { s with listeners := some (pre ++ lj :: post), deliveryQueue := some [],
                 fired := s.fired ++ [v] } := by
      simp only [atMostOneId, Option.getD_some]
      have hp : pre.countP (fun l => l.id = lj.id) = 0 := by
        rw [List.countP_eq_zero]
        intro l hlm
        simpa using hid l (List.mem_append_left _ hlm)
      have hpo : post.countP (fun l => l.id = lj.id) = 0 := by
        rw [List.countP_eq_zero]
        intro l hlm
        simpa using hid l (List.mem_append_right _ hlm)
      simp [List.countP_append, List.countP_cons, hp, hpo]
    have hrelq : ∃ e ∈ (pre ++ lj :: post).map (fun l => (l, v)),
        e.1.act = .releaseSub lj.id := by
      rcases hrel with ⟨l, hlm, hact⟩
      exact ⟨(l, v), List.mem_map.mpr ⟨l, List.mem_append_left _ hlm, rfl⟩, hact⟩
    have hno : noId lj.id (Emitter.fire v s) := by
      simp only [Emitter.fire, hl, hq, List.nil_append]
      exact deliver_releases lj.id _ _ hone hd hrelq
    have hsome : ((Emitter.fire v s).listeners).isSome = true := by
      rw [fire_isSome]; simp [hl]
    obtain ⟨ls2, hls2⟩ := Option.isSome_iff_exists.mp hsome
    have hq2 : (Emitter.fire v s).deliveryQueue.getD [] = [] := by
      rw [fire_deliveryQueue v s _ hl]; rfl
    intro p hp
    rw [fire_invoked u (Emitter.fire v s) ls2 hls2 hq2, List.drop_left] at hp
    rcases List.mem_map.mp hp with ⟨l, hlm, hfe⟩
    have : l.id ≠ lj.id := by
      have := hno l (by simp [hls2, hlm])
      exact this
    rw [← hfe]
    simpa using this

/-- Claim C4 witness: a two-listener emitter where the first listener
releases the second mid-dispatch. -/
theorem emitter_release_during_dispatch_quirk_witness :
    ((((Emitter.fire 5 { initEm with
        listeners := some [⟨1, .releaseSub 0⟩, ⟨0, .nop⟩] }).invoked.drop 0).count (0, 5) = 1) ∧
    (∀ p ∈ (Emitter.fire 7 (Emitter.fire 5 { initEm with
          listeners := some [⟨1, .releaseSub 0⟩, ⟨0, .nop⟩] })).invoked.drop
        (Emitter.fire 5 { initEm with
          listeners := some [⟨1, .releaseSub 0⟩, ⟨0, .nop⟩] }).invoked.length,
        p.1 ≠ 0)) :=
  emitter_release_during_dispatch_quirk [⟨1, .releaseSub 0⟩] [] ⟨0, .nop⟩ 5 7
    { initEm with listeners := some [⟨1, .releaseSub 0⟩, ⟨0, .nop⟩] }
    rfl rfl rfl (by decide) (by decide)

/-- Claim C3 counterexample: an emitter that had its single listener
subscribed and then released currently has zero listeners (`some []`, since
the `LinkedList` object survives and stays truthy), yet `fire` still
allocates the delivery queue (`none` becomes `some []`), contradicting the
claim that `fire` on an emitter with zero listeners does not allocate a
delivery queue.  No listener is invoked. -/
theorem emitter_fire_no_listeners_counterexample :
    (releaseById 0 (Emitter.subscribe ⟨0, .nop⟩ initEm)).listeners = some [] ∧
    (releaseById 0 (Emitter.subscribe ⟨0, .nop⟩ initEm)).deliveryQueue = none ∧
    (Emitter.fire 5 (releaseById 0 (Emitter.subscribe ⟨0, .nop⟩ initEm))).deliveryQueue
      = some [] ∧
    (Emitter.fire 5 (releaseById 0 (Emitter.subscribe ⟨0, .nop⟩ initEm))).invoked = [] := by
  refine ⟨rfl, rfl, rfl, rfl⟩

/-- Claim C3 (amended): when the listener list was never created
(`this._listeners` undefined), `fire` is a complete no-op — no listener
invocation, no error report, no state change and no delivery-queue
allocation.  When the listener list exists but is empty (zero current
listeners after releases), `fire` invokes no listener and changes nothing a
subscriber can observe, but it does allocate the (empty) delivery queue. -/
theorem emitter_fire_no_listeners (s : EmState) (v : Nat) :
    (s.listeners = none → Emitter.fire v s = s) ∧
    (s.listeners = some [] → s.deliveryQueue.getD [] = [] →
      Emitter.fire v s
        = { s with deliveryQueue := some [], fired := s.fired ++ [v] }) := by
  constructor
  · intro h
    simp [Emitter.fire, h]
  · intro h hq
    simp [Emitter.fire, h, hq, Emitter.deliver]

/-- Claim C3 witness. -/
theorem emitter_fire_no_listeners_witness :
    Emitter.fire 5 initEm = initEm ∧
    Emitter.fire 5 { initEm with listeners := some [] }
      = { initEm with listeners := some [], deliveryQueue := some [], fired := [5] } :=
  ⟨(emitter_fire_no_listeners initEm 5).1 rfl,
   (emitter_fire_no_listeners { initEm with listeners := some [] } 5).2 rfl rfl⟩

/-- After `fire` on a quiescent emitter (zero listeners, no pending delivery
queue) the emitter is still quiescent and nothing observable happened. -/
theorem fire_quiet (v : Nat) (s : EmState)
    (hl : s.listeners = none ∨ s.listeners = some [])
    (hq : s.deliveryQueue.getD [] = []) :
    ((Emitter.fire v s).listeners = none ∨ (Emitter.fire v s).listeners = some []) ∧
    (Emitter.fire v s).deliveryQueue.getD [] = [] ∧
    (Emitter.fire v s).invoked = s.invoked ∧
    (Emitter.fire v s).errSink = s.errSink := by
  rcases hl with h | h
  · simp [Emitter.fire, h, hq]
  · have he : Emitter.fire v s
        = { s with deliveryQueue := some [], fired := s.fired ++ [v] } := by
      simp [Emitter.fire, h, hq, Emitter.deliver]
    rw [he]
    simp [h]

/-- Any sequence of fires on a quiescent emitter invokes no listener and
reports no error. -/
theorem fires_quiet (vs : List Nat) (s : EmState)
    (hl : s.listeners = none ∨ s.listeners = some [])
    (hq : s.deliveryQueue.getD [] = []) :
    (vs.foldl (fun t v => Emitter.fire v t) s).invoked = s.invoked ∧
    (vs.foldl (fun t v => Emitter.fire v t) s).errSink = s.errSink := by
  induction vs generalizing s with
  | nil => exact ⟨rfl, rfl⟩
  | cons v rest ih =>
      obtain ⟨g1, g2, g3, g4⟩ := fire_quiet v s hl hq
      have := ih (Emitter.fire v s) g1 g2
      simpa [List.foldl_cons, g3, g4] using this

/-- Disposing a live emitter leaves it quiescent. -/
theorem dispose_quiet (s : EmState) (hd : s.disposed = false) :
    ((Emitter.dispose s).listeners = none ∨ (Emitter.dispose s).listeners = some []) ∧
    (Emitter.dispose s).deliveryQueue.getD [] = [] := by
  unfold Emitter.dispose
  rw [hd]
  cases s.listeners <;> cases s.deliveryQueue <;> simp

theorem dispose_of_disposed (t : EmState) (h : t.disposed = true) :
    Emitter.dispose t = t := by
  unfold Emitter.dispose
  rw [if_pos h]

/-- Claim C5: `dispose` of a live emitter is idempotent — a second `dispose`
leaves the state (every observable log included) exactly as the first left it
— and every subsequent `fire`, in any number, invokes no listener and reports
no error. -/
theorem emitter_dispose_idempotent_fire_noop (s : EmState) (vs : List Nat)
    (hd : s.disposed = false) :
    Emitter.dispose (Emitter.dispose s) = Emitter.dispose s ∧
    (vs.foldl (fun t v => Emitter.fire v t) (Emitter.dispose s)).invoked
      = (Emitter.dispose s).invoked ∧
    (vs.foldl (fun t v => Emitter.fire v t) (Emitter.dispose s)).errSink
      = (Emitter.dispose s).errSink := by
  have hdisp : (Emitter.dispose s).disposed = true := by
    unfold Emitter.dispose
    split
    · assumption
    · rfl
  obtain ⟨q1, q2⟩ := dispose_quiet s hd
  exact ⟨dispose_of_disposed _ hdisp, (fires_quiet vs _ q1 q2).1,
    (fires_quiet vs _ q1 q2).2⟩

/-- Claim C5 witness: disposing an emitter holding one listener, then firing
twice. -/
theorem emitter_dispose_idempotent_fire_noop_witness :
    Emitter.dispose (Emitter.dispose { initEm with listeners := some [⟨0, .nop⟩] })
      = Emitter.dispose { initEm with listeners := some [⟨0, .nop⟩] } ∧
    ([3, 4].foldl (fun t v => Emitter.fire v t)
        (Emitter.dispose { initEm with listeners := some [⟨0, .nop⟩] })).invoked
      = (Emitter.dispose { initEm with listeners := some [⟨0, .nop⟩] }).invoked ∧
    ([3, 4].foldl (fun t v => Emitter.fire v t)
        (Emitter.dispose { initEm with listeners := some [⟨0, .nop⟩] })).errSink
      = (Emitter.dispose { initEm with listeners := some [⟨0, .nop⟩] }).errSink :=
  emitter_dispose_idempotent_fire_noop
    { initEm with listeners := some [⟨0, .nop⟩] } [3, 4] rfl

/-- Claim C9: during one `fire`, every snapshotted listener is invoked in
order no matter what any listener does — in particular an exception from any
listener, at any queue position, is caught and reported to the error sink
(`onUnexpectedError`) while delivery to every remaining queued entry
continues; the reports appear in queue order. -/
theorem emitter_fire_isolates_listener_faults (L : List Listener) (v : Nat) (s : EmState)
    (hl : s.listeners = some L) (hq : s.deliveryQueue.getD [] = []) :
    (Emitter.fire v s).invoked = s.invoked ++ L.map (fun l => (l.id, v)) ∧
    (Emitter.fire v s).errSink = s.errSink ++ L.filterMap throwMsg :=
  ⟨fire_invoked v s L hl hq, fire_errSink v s L hl hq⟩

/-- Claim C9 witness: a throwing listener in the middle of three; both
neighbours are still invoked and the fault is reported. -/
theorem emitter_fire_isolates_listener_faults_witness :
    (Emitter.fire 9 { initEm with
        listeners := some [⟨0, .nop⟩, ⟨1, .throwErr "boom"⟩, ⟨2, .nop⟩] }).invoked
      = [(0, 9), (1, 9), (2, 9)] ∧
    (Emitter.fire 9 { initEm with
        listeners := some [⟨0, .nop⟩, ⟨1, .throwErr "boom"⟩, ⟨2, .nop⟩] }).errSink
      = ["boom"] := by
  have h := emitter_fire_isolates_listener_faults
    [⟨0, .nop⟩, ⟨1, .throwErr "boom"⟩, ⟨2, .nop⟩] 9
    { initEm with listeners := some [⟨0, .nop⟩, ⟨1, .throwErr "boom"⟩, ⟨2, .nop⟩] }
    rfl rfl
  simpa [initEm, throwMsg] using h

/-- The resume flush dispatches a prefix of the queued payloads in FIFO
order: it stops exactly when a listener re-entered `pause`, leaving the
remaining payloads queued. -/
theorem flush_spec (q : List Nat) (s : EmState)
    (hq : s.eventQueue = q) (hl : s.listeners.isSome = true) :
    ∃ k ≤ q.length,
      (PauseableEmitter.flush q s).fired = s.fired ++ q.take k ∧
      (PauseableEmitter.flush q s).eventQueue = q.drop k ∧
      (k < q.length → (PauseableEmitter.flush q s).isPaused ≠ 0) ∧
      ((PauseableEmitter.flush q s).isPaused = 0 → k = q.length) := by
  induction q generalizing s with
  | nil =>
      refine ⟨0, by simp, ?_, ?_, ?_, ?_⟩ <;> simp [PauseableEmitter.flush, hq]
  | cons v rest ih =>
      by_cases hp : s.isPaused ≠ 0
      · refine ⟨0, by simp, ?_, ?_, ?_, ?_⟩ <;>
          simp [PauseableEmitter.flush, hp, hq, hp]
      · obtain ⟨ls, hls⟩ := Option.isSome_iff_exists.mp hl
        set s2 := Emitter.fire v { s with eventQueue := rest } with hs2
        have h2q : s2.eventQueue = rest := by
          rw [hs2, fire_eventQueue]
        have h2l : s2.listeners.isSome = true := by
          rw [hs2, fire_isSome]
          simp [hls]
        have h2f : s2.fired = s.fired ++ [v] := by
          rw [hs2, fire_fired v _ ls (by simp [hls])]
        obtain ⟨k, hk, g1, g2, g3, g4⟩ := ih s2 h2q h2l
        refine ⟨k + 1, by simpa using Nat.succ_le_succ hk, ?_, ?_, ?_, ?_⟩ <;>
          simp only [PauseableEmitter.flush, if_neg hp]
        · rw [g1, h2f]
          simp [List.take_cons]
        · simpa using g2
        · intro hlt
          refine g3 ?_
          simp only [List.length_cons] at hlt
          omega
        · intro h0
          have := g4 h0
          simp only [List.length_cons]
          omega

/-- Claim C8: for a `PauseableEmitter` without a merge function, a `resume`
bringing the pause counter from 1 to 0 dispatches the queued payloads one at
a time in FIFO order, checking before each dispatch whether a listener
re-entered `pause`: some prefix of the queue is dispatched, the untouched
remainder stays queued for a future resume, flushing stops strictly early
only when re-paused, and an uninterrupted flush empties the queue.  In
particular, `pause(); fire(1); fire(2); resume()` with a single listener
yields exactly the two downstream emissions `1` then `2`, in that order. -/
theorem pauseable_resume_flush_fifo (q : List Nat) (s : EmState)
    (hp : s.isPaused = 1) (hq : s.eventQueue = q) (hl : s.listeners.isSome = true) :
    (∃ k ≤ q.length,
      (PauseableEmitter.resume none s).fired = s.fired ++ q.take k ∧
      (PauseableEmitter.resume none s).eventQueue = q.drop k ∧
      (k < q.length → (PauseableEmitter.resume none s).isPaused ≠ 0) ∧
      ((PauseableEmitter.resume none s).isPaused = 0 → k = q.length)) ∧
    ((PauseableEmitter.resume none
        (PauseableEmitter.fire 2 (PauseableEmitter.fire 1
          (PauseableEmitter.pause { initEm with listeners := some [⟨0, .nop⟩] })))).invoked
      = [(0, 1), (0, 2)] ∧
     (PauseableEmitter.resume none
        (PauseableEmitter.fire 2 (PauseableEmitter.fire 1
          (PauseableEmitter.pause { initEm with listeners := some [⟨0, .nop⟩] })))).fired
      = [1, 2]) := by
  constructor
  · subst hq
    have hr : PauseableEmitter.resume none s
        = PauseableEmitter.flush s.eventQueue { s with isPaused := 0 } := by
      unfold PauseableEmitter.resume
      rw [hp]
      simp
    rw [hr]
    exact flush_spec s.eventQueue { s with isPaused := 0 } rfl (by simpa using hl)
  · exact ⟨rfl, rfl⟩

/-- Claim C8 witness: the concrete `pause(); fire(1); fire(2); resume()`
state satisfies the general theorem's hypotheses. -/
theorem pauseable_resume_flush_fifo_witness :
    (∃ k ≤ [1, 2].length,
      (PauseableEmitter.resume none
        (PauseableEmitter.fire 2 (PauseableEmitter.fire 1
          (PauseableEmitter.pause { initEm with listeners := some [⟨0, .nop⟩] })))).fired
        = (PauseableEmitter.fire 2 (PauseableEmitter.fire 1
            (PauseableEmitter.pause { initEm with
              listeners := some [⟨0, .nop⟩] }))).fired ++ [1, 2].take k ∧
      (PauseableEmitter.resume none
        (PauseableEmitter.fire 2 (PauseableEmitter.fire 1
          (PauseableEmitter.pause { initEm with listeners := some [⟨0, .nop⟩] })))).eventQueue
        = [1, 2].drop k ∧
      (k < [1, 2].length →
        (PauseableEmitter.resume none
          (PauseableEmitter.fire 2 (PauseableEmitter.fire 1
            (PauseableEmitter.pause { initEm with
              listeners := some [⟨0, .nop⟩] })))).isPaused ≠ 0) ∧
      ((PauseableEmitter.resume none
          (PauseableEmitter.fire 2 (PauseableEmitter.fire 1
            (PauseableEmitter.pause { initEm with
              listeners := some [⟨0, .nop⟩] })))).isPaused = 0 → k = [1, 2].length)) ∧
    ((PauseableEmitter.resume none
        (PauseableEmitter.fire 2 (PauseableEmitter.fire 1
          (PauseableEmitter.pause { initEm with listeners := some [⟨0, .nop⟩] })))).invoked
      = [(0, 1), (0, 2)] ∧
     (PauseableEmitter.resume none
        (PauseableEmitter.fire 2 (PauseableEmitter.fire 1
          (PauseableEmitter.pause { initEm with listeners := some [⟨0, .nop⟩] })))).fired
      = [1, 2]) :=
  pauseable_resume_flush_fifo [1, 2]
    (PauseableEmitter.fire 2 (PauseableEmitter.fire 1
      (PauseableEmitter.pause { initEm with listeners := some [⟨0, .nop⟩] })))
    rfl rfl rfl

/-- While a debounce timer is pending, every further fire strictly before the
deadline only queues its payload; when the timer finally elapses the whole
queue is merged and dispatched once, at the deadline. -/
theorem run_accumulate (d : Nat) (f : List Nat → Nat) (rest : List (Nat × Nat)) :
    ∀ (te : Nat) (s : DebState),
    s.handle = some te → s.em.isPaused = 1 → s.em.listeners.isSome = true →
    (∀ p ∈ rest, p.1 < te) →
    DebounceEmitter.run d f rest s
      = [(te, f (s.em.eventQueue ++ rest.map Prod.snd))] := by
  induction rest with
  | nil =>
      intro te s hh hp hl hrest
      obtain ⟨em, hdl⟩ := s
      simp only at hh hp hl ⊢
      subst hh
      obtain ⟨ls, hls⟩ := Option.isSome_iff_exists.mp hl
      have hres : PauseableEmitter.resume (some f) em
          = Emitter.fire (f em.eventQueue)
              { em with isPaused := 0, eventQueue := [] } := by
        unfold PauseableEmitter.resume
        rw [hp]
        simp
      have hfired : (PauseableEmitter.resume (some f) em).fired
          = em.fired ++ [f em.eventQueue] := by
        rw [hres, fire_fired _ _ ls (by simp [hls])]
      simp [DebounceEmitter.run, DebounceEmitter.expire, hfired, List.drop_left]
  | cons p rest ih =>
      intro te s hh hp hl hrest
      obtain ⟨t, w⟩ := p
      obtain ⟨em, hdl⟩ := s
      simp only at hh hp hl ⊢
      subst hh
      obtain ⟨ls, hls⟩ := Option.isSome_iff_exists.mp hl
      have hlt : t < te := hrest (t, w) (by simp)
      have hnotle : ¬ te ≤ t := by omega
      have step : DebounceEmitter.fire d t w ⟨em, some te⟩
          = ⟨{ em with eventQueue := em.eventQueue ++ [w] }, some te⟩ := by
        unfold DebounceEmitter.fire PauseableEmitter.fire
        simp [hls, hp]
      simp only [DebounceEmitter.run, if_neg hnotle, step]
      rw [ih te ⟨{ em with eventQueue := em.eventQueue ++ [w] }, some te⟩ rfl hp
        (by simp [hls]) (fun p hp2 => hrest p (by simp [hp2]))]
      simp

/-- Claim C1 counterexample: delay 50, merge = count, three fires at t = 0,
10, 20 (gaps of 10 < 50).  The burst does collapse to one merged emission of
value 3, but it is delivered at t = 50 — `delay` after the *first* fire — and
not at t = 70 = 20 + 50, which refutes the trailing-edge part of the claim:
the timer is started by the first fire of the burst and never reset by later
fires (`DebounceEmitter.fire` only calls `setTimeout` when `!this._handle`). -/
theorem debounce_trailing_edge_counterexample :
    DebounceEmitter.run 50 List.length [(0, 7), (10, 8), (20, 9)] (debInit [⟨0, .nop⟩])
      = [(50, 3)] ∧
    DebounceEmitter.run 50 List.length [(0, 7), (10, 8), (20, 9)] (debInit [⟨0, .nop⟩])
      ≠ [(20 + 50, 3)] :=
  ⟨rfl, by decide⟩

/-- Claim C1 (amended): for a `DebounceEmitter` with delay `d` and merge `f`,
a burst whose first fire happens at `t0` and whose remaining fires all happen
strictly before `t0 + d` collapses to exactly one merged emission, delivered
`d` after the *first* fire of the burst (at `t0 + d`) — a leading-edge
anchored window, not a trailing-edge one, because later fires never reset the
pending timer. -/
theorem debounce_burst_single_emission (d : Nat) (f : List Nat → Nat)
    (t0 v0 : Nat) (rest : List (Nat × Nat)) (L : List Listener)
    (hd : 0 < d) (hrest : ∀ p ∈ rest, p.1 < t0 + d) :
    DebounceEmitter.run d f ((t0, v0) :: rest) (debInit L)
      = [(t0 + d, f (v0 :: rest.map Prod.snd))] := by
  have hfire : DebounceEmitter.fire d t0 v0 (debInit L)
      = ⟨{ initEm with listeners := some L, isPaused := 1, eventQueue := [v0] },
         some (t0 + d)⟩ := by
    unfold DebounceEmitter.fire PauseableEmitter.pause PauseableEmitter.fire
    simp [debInit, initEm]
  have := run_accumulate d f rest (t0 + d)
    ⟨{ initEm with listeners := some L, isPaused := 1, eventQueue := [v0] },
     some (t0 + d)⟩
    rfl rfl (by simp) hrest
  simp only [DebounceEmitter.run, debInit, hfire]
  simpa using this

/-- Claim C1 witness: delay 50, merge = count, fires at t = 0, 10, 20. -/
theorem debounce_burst_single_emission_witness :
    DebounceEmitter.run 50 List.length [(0, 7), (10, 8), (20, 9)] (debInit [⟨0, .nop⟩])
      = [(0 + 50, List.length (7 :: [(10, 8), (20, 9)].map Prod.snd))] :=
  debounce_burst_single_emission 50 List.length 0 7 [(10, 8), (20, 9)] [⟨0, .nop⟩]
    (by decide) (by decide)

theorem findTop_go (xs : List (String × Nat)) :
    ∀ (a : String) (c : Nat),
    ∃ a2 c2, xs.foldl topStep (some a, c) = (some a2, c2) ∧
      ((a2, c2) = (a, c) ∨ (a2, c2) ∈ xs) ∧ c ≤ c2 ∧ ∀ q ∈ xs, q.2 ≤ c2 := by
  induction xs with
  | nil =>
      intro a c
      exact ⟨a, c, rfl, Or.inl rfl, le_refl c, by simp⟩
  | cons x xs ih =>
      intro a c
      obtain ⟨b, cb⟩ := x
      by_cases h : c < cb
      · have hstep : topStep (some a, c) (b, cb) = (some b, cb) := by
          simp [topStep, h]
        obtain ⟨a2, c2, h1, h2, h3, h4⟩ := ih b cb
        refine ⟨a2, c2, by simpa [hstep] using h1, ?_, by omega, ?_⟩
        · rcases h2 with h2 | h2
          · exact Or.inr (by simp [h2])
          · exact Or.inr (List.mem_cons_of_mem _ h2)
        · intro q hq
          rcases List.mem_cons.mp hq with hq | hq
          · rw [hq]
            exact h3
          · exact h4 q hq
      · have hstep : topStep (some a, c) (b, cb) = (some a, c) := by
          simp [topStep, h]
        obtain ⟨a2, c2, h1, h2, h3, h4⟩ := ih a c
        refine ⟨a2, c2, by simpa [hstep] using h1, ?_, h3, ?_⟩
        · rcases h2 with h2 | h2
          · exact Or.inl h2
          · exact Or.inr (List.mem_cons_of_mem _ h2)
        · intro q hq
          rcases List.mem_cons.mp hq with hq | hq
          · rw [hq]
            simp only
            omega
          · exact h4 q hq

/-- On a non-empty tally, `findTop` returns an actual entry of the tally
holding a maximal count. -/
theorem findTop_spec (t : List (String × Nat)) (h : t ≠ []) :
    ∃ a c, findTop t = (some a, c) ∧ (a, c) ∈ t ∧ ∀ q ∈ t, q.2 ≤ c := by
  cases t with
  | nil => exact absurd rfl h
  | cons x xs =>
      obtain ⟨b, cb⟩ := x
      have hstep : topStep (none, 0) (b, cb) = (some b, cb) := by
        simp [topStep]
      obtain ⟨a2, c2, h1, h2, h3, h4⟩ := findTop_go xs b cb
      refine ⟨a2, c2, by simpa [findTop, hstep] using h1, ?_, ?_⟩
      · rcases h2 with h2 | h2
        · simp [h2]
        · exact List.mem_cons_of_mem _ h2
      · intro q hq
        rcases List.mem_cons.mp hq with hq | hq
        · rw [hq]
          exact h3
        · exact h4 q hq

theorem bumpStack_ne_nil (st : String) (t : List (String × Nat)) :
    bumpStack st t ≠ [] := by
  cases t with
  | nil => simp [bumpStack]
  | cons x rest =>
      obtain ⟨a, c⟩ := x
      by_cases h : a = st <;> simp [bumpStack, h]

/-- Whenever `LeakageMonitor.check` prints a warning, the named capture site
is an entry of the updated tally holding a maximal count — it really is a
most frequent capture site. -/
theorem check_warn_top (g : Rat) (custom : Option Rat) (stack : String)
    (n : Nat) (m : LeakState) (site : String) (cnt : Nat)
    (h : (LeakageMonitor.check g custom stack n m).2 = some (site, cnt)) :
    (site, cnt) ∈ bumpStack stack m.tally ∧
    ∀ q ∈ bumpStack stack m.tally, q.2 ≤ cnt := by
  simp only [LeakageMonitor.check] at h
  by_cases h1 : effectiveThreshold g custom ≤ 0 ∨ (n : Rat) < effectiveThreshold g custom
  · rw [if_pos h1] at h
    simp at h
  · rw [if_neg h1] at h
    by_cases h2 : m.warnCountdown - 1 ≤ 0
    · rw [if_pos h2] at h
      obtain ⟨a, c, hf, hmem, hmax⟩ :=
        findTop_spec (bumpStack stack m.tally) (bumpStack_ne_nil _ _)
      rw [hf] at h
      simp only [Option.getD_some, Option.some.injEq, Prod.mk.injEq] at h
      obtain ⟨hsite, hcnt⟩ := h
      rw [← hsite, ← hcnt]
      exact ⟨hmem, hmax⟩
    · rw [if_neg h2] at h
      simp at h

/-- `check` is a no-op returning no warning whenever the effective threshold
is not positive. -/
theorem check_nonpos (g : Rat) (custom : Option Rat) (stack : String)
    (n : Nat) (m : LeakState) (h : effectiveThreshold g custom ≤ 0) :
    LeakageMonitor.check g custom stack n m = (m, none) := by
  simp only [LeakageMonitor.check]
  rw [if_pos (Or.inl h)]

/-- A subscription sequence on an emitter whose monitor's effective threshold
stays non-positive never warns. -/
theorem subscribeSeq_nonpos (subs : List (Rat × String)) :
    ∀ (custom : Option Rat) (m : LeakState) (cnt : Nat) (w : List (String × Nat)),
    (∀ gs ∈ subs, effectiveThreshold gs.1 custom ≤ 0) →
    (Emitter.subscribeSeq subs ⟨some (custom, m), cnt, w⟩).warnings = w := by
  induction subs with
  | nil =>
      intro custom m cnt w hτ
      rfl
  | cons gs subs ih =>
      intro custom m cnt w hτ
      obtain ⟨g, st⟩ := gs
      have h0 : effectiveThreshold g custom ≤ 0 := hτ (g, st) (by simp)
      have hstep : Emitter.subscribeLeak g st ⟨some (custom, m), cnt, w⟩
          = ⟨some (custom, m), cnt + 1, w⟩ := by
        simp [Emitter.subscribeLeak, check_nonpos g custom st (cnt + 1) m h0]
      simp only [Emitter.subscribeSeq, List.foldl_cons]
      have := ih custom m (cnt + 1) w (fun p hp => hτ p (by simp [hp]))
      simpa [Emitter.subscribeSeq, hstep] using this

/-- A subscription sequence on an emitter constructed without a leak monitor
never warns. -/
theorem subscribeSeq_monNone (subs : List (Rat × String)) :
    ∀ (cnt : Nat) (w : List (String × Nat)),
    (Emitter.subscribeSeq subs ⟨none, cnt, w⟩).warnings = w := by
  induction subs with
  | nil =>
      intro cnt w
      rfl
  | cons gs subs ih =>
      intro cnt w
      obtain ⟨g, st⟩ := gs
      have hstep : Emitter.subscribeLeak g st ⟨none, cnt, w⟩ = ⟨none, cnt + 1, w⟩ := by
        simp [Emitter.subscribeLeak]
      simp only [Emitter.subscribeSeq, List.foldl_cons]
      simpa [Emitter.subscribeSeq, hstep] using ih (cnt + 1) w

/-- Claim C2 counterexample: with effective threshold 2 (global threshold 2,
no per-instance override), the *second* subscription already produces a
warning — `check` is called with `size + 1` and does not early-return once
`listenerCount < threshold` fails, i.e. as soon as the listener count
*reaches* the threshold — refuting the claim that the 1st and 2nd
subscriptions produce no warning and only the 3rd warns. -/
theorem leak_threshold_second_subscription_counterexample :
    (Emitter.subscribeSeq [(2, "a"), (2, "b")] (Emitter.construct 2 none)).warnings
      = [("b", 1)] ∧
    (Emitter.subscribeSeq [(2, "a"), (2, "b")] (Emitter.construct 2 none)).warnings
      ≠ [] := by
  have h1 : (Emitter.subscribeSeq [(2, "a"), (2, "b")] (Emitter.construct 2 none)).warnings
      = [("b", 1)] := by
    norm_num [Emitter.subscribeSeq, Emitter.subscribeLeak, Emitter.construct,
      LeakageMonitor.check, effectiveThreshold, bumpStack, findTop, topStep]
  rw [h1]
  simp

/-- Claim C2 (amended): with effective threshold 2 the 1st subscription
produces no warning; the 2nd — the one whose listener count reaches the
threshold — produces exactly one warning naming a most frequent capture
site; the countdown then resets to `threshold * 0.5` (= 1), so the next
excess subscription warns again.  Every warning names a capture site holding
a maximal tally count, and no warning is ever produced while the effective
threshold is ≤ 0. -/
theorem leak_monitor_warning_behaviour
    (custom custom2 : Option Rat) (g : Rat) (stack : String) (n : Nat)
    (m : LeakState) (subs : List (Rat × String)) (cnt : Nat)
    (w : List (String × Nat)) (site : String) (topCount : Nat)
    (hτ : ∀ gs ∈ subs, effectiveThreshold gs.1 custom ≤ 0) :
    (Emitter.subscribeSeq [(2, "a")] (Emitter.construct 2 none)).warnings = [] ∧
    (Emitter.subscribeSeq [(2, "a"), (2, "b")] (Emitter.construct 2 none)).warnings
      = [("b", 1)] ∧
    (Emitter.subscribeSeq [(2, "a"), (2, "b"), (2, "a")]
        (Emitter.construct 2 none)).warnings = [("b", 1), ("b", 1)] ∧
    ((LeakageMonitor.check g custom2 stack n m).2 = some (site, topCount) →
      (site, topCount) ∈ bumpStack stack m.tally ∧
      ∀ q ∈ bumpStack stack m.tally, q.2 ≤ topCount) ∧
    (Emitter.subscribeSeq subs ⟨some (custom, m), cnt, w⟩).warnings = w := by
  refine ⟨?_, ?_, ?_, ?_, ?_⟩
  · norm_num [Emitter.subscribeSeq, Emitter.subscribeLeak, Emitter.construct,
      LeakageMonitor.check, effectiveThreshold, bumpStack, findTop, topStep]
  · norm_num [Emitter.subscribeSeq, Emitter.subscribeLeak, Emitter.construct,
      LeakageMonitor.check, effectiveThreshold, bumpStack, findTop, topStep]
  · norm_num [Emitter.subscribeSeq, Emitter.subscribeLeak, Emitter.construct,
      LeakageMonitor.check, effectiveThreshold, bumpStack, findTop, topStep]
    decide
  · exact check_warn_top g custom2 stack n m site topCount
  · exact subscribeSeq_nonpos subs custom m cnt w hτ

/-- Claim C2 witness: the monitored behaviour at concrete inputs — the
non-positive-threshold branch instantiated with a per-instance override of
−1 and one subscription. -/
theorem leak_monitor_warning_behaviour_witness :
    (Emitter.subscribeSeq [(2, "a")] (Emitter.construct 2 none)).warnings = [] ∧
    (Emitter.subscribeSeq [(2, "a"), (2, "b")] (Emitter.construct 2 none)).warnings
      = [("b", 1)] ∧
    (Emitter.subscribeSeq [(2, "a"), (2, "b"), (2, "a")]
        (Emitter.construct 2 none)).warnings = [("b", 1), ("b", 1)] ∧
    ((LeakageMonitor.check 2 none "x" 2 ⟨[], 0⟩).2 = some ("x", 1) →
      ("x", 1) ∈ bumpStack "x" ([] : List (String × Nat)) ∧
      ∀ q ∈ bumpStack "x" ([] : List (String × Nat)), q.2 ≤ 1) ∧
    (Emitter.subscribeSeq [(5, "y")] ⟨some (some (-1), ⟨[], 0⟩), 0, []⟩).warnings
      = [] :=
  leak_monitor_warning_behaviour (some (-1)) none 2 "x" 2 ⟨[], 0⟩ [(5, "y")] 0 []
    "x" 1 (by intro gs hgs; simp at hgs; subst hgs; norm_num [effectiveThreshold])

/-- Claim C10: an `Emitter` constructed while the process-wide leak-warning
threshold is ≤ 0 gets no leak monitor at all, so no sequence of
subscriptions — whatever the global threshold becomes later and whatever the
per-instance `leakWarningThreshold` option said — ever produces a warning;
the per-instance override is only retained (inside a monitor) when the
global threshold was > 0 at construction time. -/
theorem emitter_leak_monitor_requires_positive_global
    (g0 g1 : Rat) (custom : Option Rat) (subs : List (Rat × String))
    (h0 : g0 ≤ 0) (h1 : 0 < g1) :
    (Emitter.construct g0 custom).leakageMon = none ∧
    (Emitter.subscribeSeq subs (Emitter.construct g0 custom)).warnings = [] ∧
    (Emitter.construct g1 custom).leakageMon = some (custom, ⟨[], 0⟩) := by
  have hc : Emitter.construct g0 custom = ⟨none, 0, []⟩ := by
    simp [Emitter.construct, not_lt.mpr h0]
  refine ⟨by rw [hc], ?_, by simp [Emitter.construct, h1]⟩
  rw [hc]
  exact subscribeSeq_monNone subs 0 []

/-- Claim C10 witness: constructed under global threshold −1 with a
per-instance override of 5; two subscriptions under a later global
threshold of 3 still cannot warn. -/
theorem emitter_leak_monitor_requires_positive_global_witness :
    (Emitter.construct (-1) (some 5)).leakageMon = none ∧
    (Emitter.subscribeSeq [(3, "x"), (3, "y")]
        (Emitter.construct (-1) (some 5))).warnings = [] ∧
    (Emitter.construct 2 (some 5)).leakageMon = some (some 5, ⟨[], 0⟩) :=
  emitter_leak_monitor_requires_positive_global (-1) 2 (some 5) [(3, "x"), (3, "y")]
    (by norm_num) (by norm_num)

theorem init_le_foldl_max (ps : List JoinPromise) :
    ∀ a : Nat, a ≤ ps.foldl (fun b q => max b q.dur) a := by
  induction ps with
  | nil => intro a; simp
  | cons q ps ih =>
      intro a
      calc a ≤ max a q.dur := le_max_left a q.dur
        _ ≤ ps.foldl (fun b q => max b q.dur) (max a q.dur) := ih (max a q.dur)

theorem le_foldl_max (ps : List JoinPromise) :
    ∀ (a : Nat) (p : JoinPromise), p ∈ ps →
      p.dur ≤ ps.foldl (fun b q => max b q.dur) a := by
  induction ps with
  | nil => simp
  | cons q ps ih =>
      intro a p hp
      rcases List.mem_cons.mp hp with h | h
      · rw [h]
        calc q.dur ≤ max a q.dur := le_max_right a q.dur
          _ ≤ ps.foldl (fun b r => max b r.dur) (max a q.dur) :=
            init_le_foldl_max ps (max a q.dur)
      · exact ih (max a q.dur) p h

/-- When the token is not cancelled at the turn boundary, the head listener
of a `fireAsync` queue is invoked immediately, at the current time. -/
theorem fireAsync_inv_head (token : Nat → Bool) (pj : Option (JoinPromise → JoinPromise))
    (l : AListener) (rest : List AListener) (i now : Nat) (ht : token i = false) :
    (AsyncEmitter.fireAsync token pj (l :: rest) i now).invocations.get? 0
      = some (l.id, now) := by
  simp only [AsyncEmitter.fireAsync, ht]
  cases l.throws <;> simp

/-- Characterisation of `fireAsync` when no listener throws and the token is
never cancelled: every listener is invoked exactly once in order; the error
sink receives exactly the rejection reasons of every turn's joined promises,
turn by turn in order; and the next listener's invocation time is at or after
the settle time of every promise the previous listener joined. -/
theorem fireAsync_spec (ls : List AListener) :
    ∀ (token : Nat → Bool) (i now : Nat),
    (∀ k, token k = false) → (∀ l ∈ ls, l.throws = none) →
    ((AsyncEmitter.fireAsync token none ls i now).invocations.map Prod.fst
        = ls.map AListener.id) ∧
    ((AsyncEmitter.fireAsync token none ls i now).errSink
        = (ls.map (fun l => l.joins.filterMap JoinPromise.rejects)).join) ∧
    (∀ j x y lj, (AsyncEmitter.fireAsync token none ls i now).invocations.get? j = some x →
      (AsyncEmitter.fireAsync token none ls i now).invocations.get? (j + 1) = some y →
      ls.get? j = some lj → ∀ p ∈ lj.joins, x.2 + p.dur ≤ y.2) := by
  induction ls with
  | nil =>
      intro token i now htok hnt
      refine ⟨rfl, rfl, ?_⟩
      intro j x y lj hx
      simp [AsyncEmitter.fireAsync] at hx
  | cons l rest ih =>
      intro token i now htok hnt
      have ht : token i = false := htok i
      have hτ : l.throws = none := hnt l (by simp)
      have hstep : AsyncEmitter.fireAsync token none (l :: rest) i now
          = ⟨(l.id, now) :: (AsyncEmitter.fireAsync token none rest (i + 1)
                (now + l.joins.foldl (fun b q => max b q.dur) 0)).invocations,
             l.joins.filterMap JoinPromise.rejects ++
               (AsyncEmitter.fireAsync token none rest (i + 1)
                (now + l.joins.foldl (fun b q => max b q.dur) 0)).errSink,
             (AsyncEmitter.fireAsync token none rest (i + 1)
                (now + l.joins.foldl (fun b q => max b q.dur) 0)).endTime⟩ := by
        simp only [AsyncEmitter.fireAsync, ht, hτ]
        simp
      obtain ⟨ih1, ih2, ih3⟩ := ih token (i + 1)
        (now + l.joins.foldl (fun b q => max b q.dur) 0) htok
        (fun l2 h2 => hnt l2 (by simp [h2]))
      refine ⟨?_, ?_, ?_⟩
      · rw [hstep]
        simpa using ih1
      · rw [hstep]
        simpa using ih2
      · intro j x y lj hx hy hl
        rw [hstep] at hx hy
        cases j with
        | zero =>
            simp only [List.get?] at hx hl
            cases hx
            cases hl
            cases rest with
            | nil =>
                simp [AsyncEmitter.fireAsync] at hy
            | cons l2 rest2 =>
                have hhead := fireAsync_inv_head token none l2 rest2 (i + 1)
                  (now + l.joins.foldl (fun b q => max b q.dur) 0) (htok (i + 1))
                simp only [List.get?] at hy
                rw [hy] at hhead
                cases hhead
                intro p hp
                simpa using Nat.add_le_add_left (le_foldl_max l.joins 0 p hp) now
        | succ k =>
            simp only [List.get?] at hx hy hl
            exact ih3 k x y lj hx hy hl

/-- Claim C6 counterexample: listener 1 joins a promise settling 30 units
later (and rejecting with reason "rej"), then its callback throws.  The
`catch`/`continue` in `fireAsync` skips the `Promise.allSettled` await for
that turn, so listener 2 is invoked at time 0, strictly before the collected
promise has settled at 30, and the abandoned promise's rejection reason is
never reported to the error sink — refuting both the "not invoked until
every promise collected during listener i's turn has settled" part and the
"each rejection is individually reported" part of the claim. -/
theorem async_fireAsync_sequential_counterexample :
    (AsyncEmitter.fireAsync (fun _ => false) none
        [⟨1, [⟨30, some "rej"⟩], some "boom"⟩, ⟨2, [], none⟩] 0 0)
      = ⟨[(1, 0), (2, 0)], ["boom"], 0⟩ ∧
    ¬ ((0 : Nat) + 30 ≤ 0) ∧
    "rej" ∉ (AsyncEmitter.fireAsync (fun _ => false) none
        [⟨1, [⟨30, some "rej"⟩], some "boom"⟩, ⟨2, [], none⟩] 0 0).errSink :=
  ⟨rfl, by decide, by decide⟩

/-- Claim C6 (amended): provided no listener's callback itself throws (a
throwing callback is reported and its collected promises are abandoned
without being awaited) and the token is never cancelled,
`AsyncEmitter.fireAsync` processes listeners strictly one at a time: each
listener is invoked exactly once, in subscription order; listener i+1 is not
invoked until every promise collected via `waitUntil` during listener i's
turn has settled (all-settle semantics — the turn ends only when the slowest
promise has settled); every rejection of an awaited promise is individually
reported to the error sink, in turn order, and nothing is thrown to the
caller.  Sequentially: with listener A joining a 30-unit promise and B a
20-unit one, completion takes 50 units, the sum, and B starts at 30. -/
theorem async_fireAsync_sequential (ls : List AListener) (token : Nat → Bool)
    (i now : Nat) (htok : ∀ k, token k = false) (hnt : ∀ l ∈ ls, l.throws = none) :
    ((AsyncEmitter.fireAsync token none ls i now).invocations.map Prod.fst
        = ls.map AListener.id) ∧
    ((AsyncEmitter.fireAsync token none ls i now).errSink
        = (ls.map (fun l => l.joins.filterMap JoinPromise.rejects)).join) ∧
    (∀ j x y lj, (AsyncEmitter.fireAsync token none ls i now).invocations.get? j = some x →
      (AsyncEmitter.fireAsync token none ls i now).invocations.get? (j + 1) = some y →
      ls.get? j = some lj → ∀ p ∈ lj.joins, x.2 + p.dur ≤ y.2) ∧
    (AsyncEmitter.fireAsync (fun _ => false) none
        [⟨1, [⟨30, none⟩], none⟩, ⟨2, [⟨20, none⟩], none⟩] 0 0).invocations
      = [(1, 0), (2, 30)] ∧
    (AsyncEmitter.fireAsync (fun _ => false) none
        [⟨1, [⟨30, none⟩], none⟩, ⟨2, [⟨20, none⟩], none⟩] 0 0).endTime = 50 := by
  obtain ⟨h1, h2, h3⟩ := fireAsync_spec ls token i now htok hnt
  exact ⟨h1, h2, h3, rfl, rfl⟩

/-- Claim C6 witness: two non-throwing listeners joining 30- and 20-unit
promises, the first promise rejecting. -/
theorem async_fireAsync_sequential_witness :
    ((AsyncEmitter.fireAsync (fun _ => false) none
        [⟨1, [⟨30, some "late-fail"⟩], none⟩, ⟨2, [⟨20, none⟩], none⟩] 0 0).invocations.map
          Prod.fst
        = [⟨1, [⟨30, some "late-fail"⟩], none⟩,
           (⟨2, [⟨20, none⟩], none⟩ : AListener)].map AListener.id) ∧
    ((AsyncEmitter.fireAsync (fun _ => false) none
        [⟨1, [⟨30, some "late-fail"⟩], none⟩, ⟨2, [⟨20, none⟩], none⟩] 0 0).errSink
        = ([⟨1, [⟨30, some "late-fail"⟩], none⟩,
            (⟨2, [⟨20, none⟩], none⟩ : AListener)].map
            (fun l => l.joins.filterMap JoinPromise.rejects)).join) ∧
    (∀ j x y lj, (AsyncEmitter.fireAsync (fun _ => false) none
        [⟨1, [⟨30, some "late-fail"⟩], none⟩, ⟨2, [⟨20, none⟩], none⟩] 0 0).invocations.get? j
          = some x →
      (AsyncEmitter.fireAsync (fun _ => false) none
        [⟨1, [⟨30, some "late-fail"⟩], none⟩, ⟨2, [⟨20, none⟩], none⟩] 0 0).invocations.get?
          (j + 1) = some y →
      [⟨1, [⟨30, some "late-fail"⟩], none⟩,
       (⟨2, [⟨20, none⟩], none⟩ : AListener)].get? j = some lj →
      ∀ p ∈ lj.joins, x.2 + p.dur ≤ y.2) ∧
    (AsyncEmitter.fireAsync (fun _ => false) none
        [⟨1, [⟨30, none⟩], none⟩, ⟨2, [⟨20, none⟩], none⟩] 0 0).invocations
      = [(1, 0), (2, 30)] ∧
    (AsyncEmitter.fireAsync (fun _ => false) none
        [⟨1, [⟨30, none⟩], none⟩, ⟨2, [⟨20, none⟩], none⟩] 0 0).endTime = 50 :=
  async_fireAsync_sequential
    [⟨1, [⟨30, some "late-fail"⟩], none⟩, ⟨2, [⟨20, none⟩], none⟩]
    (fun _ => false) 0 0 (fun _ => rfl) (by decide)

theorem collectJoins_go (ps : List JoinPromise) :
    ∀ acc : List JoinPromise,
    ps.foldlM (fun a p => AsyncEmitter.waitUntil none false a p) acc
      = Except.ok (acc ++ ps) := by
  induction ps with
  | nil =>
      intro acc
      show Except.ok acc = Except.ok (acc ++ [])
      simp
  | cons p ps ih =>
      intro acc
      have h : ps.foldlM (fun a p => AsyncEmitter.waitUntil none false a p) (acc ++ [p])
          = Except.ok (acc ++ p :: ps) := by
        rw [ih (acc ++ [p])]
        simp
      exact h

/-- Claim C7: every `waitUntil` call made during the synchronous portion of a
listener's turn (collection not yet frozen) is accepted and the promises are
collected in call order; once the turn's synchronous call has returned the
collection is frozen (`Object.freeze`), and any later `waitUntil` call for
that turn fails with the distinct late-join error
"waitUntil can NOT be called asynchronous". -/
theorem async_waitUntil_sync_only (pj : Option (JoinPromise → JoinPromise))
    (ps thenables : List JoinPromise) (p : JoinPromise) :
    AsyncEmitter.collectJoins none ps = Except.ok ps ∧
    AsyncEmitter.waitUntil pj true thenables p
      = Except.error "waitUntil can NOT be called asynchronous" := by
  constructor
  · simpa using collectJoins_go ps []
  · simp [AsyncEmitter.waitUntil]
